import Mathlib

/-!
Verification of the retention/cleanup engine of `temp-file-monitor.py`
(class `DirectoryMonitor`): inventory scan, retention selection, backup,
deletion, statistics, duplicate detection, and startup validation.

The Python code is shallowly embedded: each method becomes a pure Lean
function, with the filesystem and the OS call outcomes (backup copy,
unlink, directory enumeration) passed in explicitly as data.
-/

namespace TFM

/-- File paths are modelled as strings. -/
abbrev FPath := String

/-- One entry of the result of `get_file_info`: the Python tuple
`(file_path, creation_time, size)`. Timestamps and sizes are naturals. -/
structure FileRec where
  path : FPath
  ctime : Nat
  size : Nat
deriving Repr, DecidableEq

/-- The `self.stats` dictionary of `DirectoryMonitor`:
`files_deleted`, `total_size_cleaned`, `last_cleanup`. -/
structure Stats where
  files_deleted : Nat
  total_size_cleaned : Nat
  last_cleanup : Option Nat
deriving Repr, DecidableEq

/-- Initial statistics, as set in `DirectoryMonitor.__init__`. -/
def stats0 : Stats := ⟨0, 0, none⟩

/-- Outcomes of the OS calls made while processing one excess file:
whether `shutil.copy2` (inside `backup_file`) succeeds for a path,
whether `Path.unlink` succeeds for a path, and the current clock used
for `datetime.now()`. -/
structure Env where
  backupOk : FPath → Bool
  unlinkOk : FPath → Bool
  now : Nat

/-- `files.sort(key=lambda x: x[1])` from `cleanup_old_files`: the
Python `list.sort` is a stable ascending sort by the key, here the creation
time. `List.insertionSort` with the non-strict key comparison computes
exactly the stable sort, hence the same list. -/
def sortByCtime (files : List FileRec) : List FileRec :=
  List.insertionSort (fun a b => a.ctime ≤ b.ctime) files

/-- `files_to_delete = files[:len(files) - self.max_files]` guarded by
`if len(files) > self.max_files`, from `cleanup_old_files`. -/
def filesToDelete (files : List FileRec) (maxFiles : Nat) : List FileRec :=
  if files.length > maxFiles then
    (sortByCtime files).take (files.length - maxFiles)
  else
    []

/-- The body of the per-file `try` block in `cleanup_old_files`:

* `self.backup_file(file_path)` — `backup_file` catches its own
  exception and only logs it, so control always reaches the next line,
  whatever `env.backupOk` says;
* the three `self.stats[...]` updates, executed unconditionally;
* `file_path.unlink()` — the only statement that can raise; on failure
  the surrounding `except` logs and the loop moves on.

Returns the updated statistics and whether the file was actually
unlinked. -/
def processFile (env : Env) (st : Stats) (f : FileRec) : Stats × Bool :=
  ({ files_deleted := st.files_deleted + 1
   , total_size_cleaned := st.total_size_cleaned + f.size
   , last_cleanup := some env.now },
   env.unlinkOk f.path)

/-- The effect of `Path.unlink()` on the directory contents: the file with
that path is removed. -/
def eraseByPath (dir : List FileRec) (p : FPath) : List FileRec :=
  dir.filter (fun g => g.path ≠ p)

/-- State threaded through the cleanup loop: current directory
contents, current statistics, and the paths actually deleted so far. -/
structure CleanupState where
  dir : List FileRec
  stats : Stats
  deleted : List FPath
deriving Repr, DecidableEq

/-- One iteration of the `for file_path, _, size in files_to_delete`
loop in `cleanup_old_files`, acting on the cleanup state. -/
def cleanupStep (env : Env) (s : CleanupState) (f : FileRec) : CleanupState :=
  let (st, didDelete) := processFile env s.stats f
  if didDelete then
    ⟨eraseByPath s.dir f.path, st, s.deleted ++ [f.path]⟩
  else
    ⟨s.dir, st, s.deleted⟩

/-- `cleanup_old_files`, with the scan result `files` passed in (the
inventory returned by `get_file_info`) and `dir` the actual directory
contents at that moment (equal to `files` when no race occurred). -/
def cleanup_old_files (env : Env) (files : List FileRec) (maxFiles : Nat)
    (st : Stats) : CleanupState :=
  (filesToDelete files maxFiles).foldl (cleanupStep env) ⟨files, st, []⟩

/-- Paths of a file list. -/
def pathsOf (l : List FileRec) : List FPath :=
  l.map (·.path)

/-- The inventory invariant: no two records share a path. -/
def pathsNodup (l : List FileRec) : Prop :=
  (pathsOf l).Nodup

instance : IsTotal FileRec (fun a b => a.ctime ≤ b.ctime) :=
  ⟨fun a b => Nat.le_total a.ctime b.ctime⟩

instance : IsTrans FileRec (fun a b => a.ctime ≤ b.ctime) :=
  ⟨fun _ _ _ hab hbc => Nat.le_trans hab hbc⟩

/-- The kept part of the sorted inventory (the complement of
`files_to_delete` inside the sorted list). -/
def keptOf (files : List FileRec) (maxFiles : Nat) : List FileRec :=
  (sortByCtime files).drop (files.length - maxFiles)

/-! Section: The scan: `get_file_info` -/

/-- One entry produced by `self.directory_path.glob` together with the
outcome of the subsequent `os.path.getctime` / `os.path.getsize` calls:
`isFile` is `file_path.is_file()`, `statOk` tells whether both stat
calls succeed (otherwise `OSError` is caught per file and the entry is
skipped). -/
structure RawEntry where
  path : FPath
  isFile : Bool
  statOk : Bool
  ctime : Nat
  size : Nat
deriving Repr, DecidableEq

/-- What a scan can produce for the caller. -/
inductive ScanOutcome where
  | fatal (msg : String)
  | inventory (files : List FileRec)
deriving Repr, DecidableEq

/-- `get_file_info`. Its input is the outcome of enumerating the
directory: `.error` when `glob` itself raises (the directory cannot be
enumerated at all), `.ok` with the raw entries otherwise. The outer
`except` catches an enumeration failure, logs it, and the function
falls through to `return files`, i.e. it returns the (empty) list
accumulated so far as a normal inventory: no error is ever surfaced to
the caller. -/
def get_file_info (listing : Except Unit (List RawEntry)) : ScanOutcome :=
  match listing with
  | .error _ => .inventory []
  | .ok entries =>
      .inventory (entries.filterMap (fun e =>
        if e.isFile ∧ e.statOk then some ⟨e.path, e.ctime, e.size⟩ else none))

/-! Section: Duplicate detection: `detect_duplicates` -/

/-- A content digest (`hashlib.md5(...).hexdigest()`). -/
abbrev Digest := String

/-- One scanned file together with the result of
`calculate_file_hash`: `none` models the `return None` taken when
reading the file fails (the file is then skipped for duplicate
detection). -/
abbrev HashedFile := FPath × Option Digest

/-- The lookup `current_hashes[file_hash]` on the dictionary built so
far, modelled as an association list from digest to path (newest
binding first; keys are unique because a digest is only inserted when
absent). -/
def lookupDigest : List (Digest × FPath) → Digest → Option FPath
  | [], _ => none
  | (d0, p0) :: rest, d => if d0 = d then some p0 else lookupDigest rest d

/-- The `for file_path, _, _ in files` loop of `detect_duplicates`:
a file whose hash is already a key of `current_hashes` is appended to
`duplicates` paired with the stored (first-seen) path; otherwise its
hash is recorded with the file as value; a failed hash (`None`) is
skipped. -/
def detectDupsAux (seen : List (Digest × FPath)) :
    List HashedFile → List (FPath × FPath)
  | [] => []
  | (p, od) :: rest =>
      match od with
      | none => detectDupsAux seen rest
      | some d =>
          match lookupDigest seen d with
          | some c => (p, c) :: detectDupsAux seen rest
          | none => detectDupsAux ((d, p) :: seen) rest

/-- `detect_duplicates`, with the scanned files and their hash results
passed in. Returns the `duplicates` list. -/
def detect_duplicates (files : List HashedFile) : List (FPath × FPath) :=
  detectDupsAux [] files

/-- The first path in `files` carrying digest `d` (spec reading:
"first occurrence of a digest wins as canonical"). -/
def firstWithDigest : List HashedFile → Digest → Option FPath
  | [], _ => none
  | (p, od) :: rest, d =>
      if od = some d then some p else firstWithDigest rest d

/-- Specification-side characterisation of duplicate reporting, by
direct recursion over the scan order with the already-seen prefix kept
explicitly: a file is reported exactly when an earlier file carries the
same digest, and it is paired with the first such file. -/
def specDupsAux (pre : List HashedFile) :
    List HashedFile → List (FPath × FPath)
  | [] => []
  | (p, od) :: rest =>
      (match od with
       | none => []
       | some d =>
           match firstWithDigest pre d with
           | some c => [(p, c)]
           | none => []) ++ specDupsAux (pre ++ [(p, od)]) rest

/-- Specification-side duplicate list: one pair `(file, canonical)` per
non-first occurrence of each digest, in scan order. -/
def specDuplicates (files : List HashedFile) : List (FPath × FPath) :=
  specDupsAux [] files

/-! Section: Startup: `DirectoryMonitor.__init__` and `main` -/

/-- The filesystem facts startup looks at. -/
structure StartupFS where
  dirExists : Bool
  backupDirExists : Bool
deriving Repr, DecidableEq

/-- Errors that can abort initialization. -/
inductive InitError where
  | directoryUnavailable
  | backupDirError
  | watchdogError
deriving Repr, DecidableEq

/-- Monitor configuration fields set by `__init__` / `load_config`. -/
structure MonitorConfig where
  max_files : Nat
  check_interval : Nat
deriving Repr, DecidableEq

/-- `DirectoryMonitor.__init__`: fields are assigned, then
`self.directory_path.exists()` is checked and `FileNotFoundError` is
raised when the directory is missing — before `load_config`,
`setup_backup_directory` (which would create the backup root) and
`setup_watchdog` run. On success the backup directory exists
afterwards. `cfg` is the optional content of `monitor_config.ini`. -/
def directoryMonitorInit (fs : StartupFS) (maxFiles checkInterval : Nat)
    (cfg : Option MonitorConfig) :
    Except InitError (MonitorConfig × Stats × StartupFS) :=
  if fs.dirExists then
    let c := match cfg with
      | some c => c
      | none => ⟨maxFiles, checkInterval⟩
    .ok (c, stats0, { fs with backupDirExists := true })
  else
    .error .directoryUnavailable

/-- The startup part of `main`: it first checks
`os.path.exists(directory_to_monitor)` and calls `sys.exit(1)` when the
directory is missing, before `DirectoryMonitor` is ever constructed;
any exception from construction is also caught and turned into
`sys.exit(1)`. Returns the process exit code and the filesystem state
at the moment the monitor loop would start (or the process exits). -/
def mainStartup (fs : StartupFS) (cfg : Option MonitorConfig) :
    Nat × StartupFS :=
  if fs.dirExists then
    match directoryMonitorInit fs 1 5 cfg with
    | .ok (_, _, fs2) => (0, fs2)
    | .error _ => (1, fs)
  else
    (1, fs)

/-! Section: The other operations of the monitor (for the statistics
invariant): the effect of each on the `stats` counters, read off from
the source. -/

/-- The mutable state of `DirectoryMonitor` that the claims are about. -/
structure MonitorState where
  config : MonitorConfig
  stats : Stats
  dir : List FileRec
deriving Repr, DecidableEq

/-- The operations of the monitor loop, each carrying the external
inputs it consumes. -/
inductive Op where
  | scan (listing : Except Unit (List RawEntry))
  | detectDuplicatesOp (files : List HashedFile)
  | cleanupOp (env : Env)
  | displayStats
  | loadConfig (cfg : Option MonitorConfig)
  | saveConfig

/-- The effect of each operation on the monitor state, read off from
the source: `get_file_info`, `display_current_files`,
`display_system_stats`, `detect_duplicates`, `load_config` and
`save_config` never write `self.stats`; only the loop body of
`cleanup_old_files` does. -/
def stepOp (st : MonitorState) : Op → MonitorState
  | .scan _ => st
  | .detectDuplicatesOp _ => st
  | .cleanupOp env =>
      let s := cleanup_old_files env st.dir st.config.max_files st.stats
      { st with dir := s.dir, stats := s.stats }
  | .displayStats => st
  | .loadConfig cfg =>
      match cfg with
      | some c => { st with config := c }
      | none => st
  | .saveConfig => st

/-! Section: Concrete inputs used by counterexamples and witnesses -/

/-- A three-file inventory in enumeration order (not sorted). -/
def invA : List FileRec := [⟨"c.tmp", 3, 30⟩, ⟨"a.tmp", 1, 10⟩, ⟨"b.tmp", 2, 20⟩]

/-- Environment where every backup and every unlink succeeds. -/
def envAll : Env := ⟨fun _ => true, fun _ => true, 7⟩

/-- Environment where the backup copy of `a.tmp` fails (disk full) and
every unlink succeeds. -/
def envBadBackup : Env := ⟨fun p => p ≠ "a.tmp", fun _ => true, 7⟩

/-- Environment where every backup succeeds but unlinking `a.tmp`
fails (the file vanished between scan and delete). -/
def envBadUnlink : Env := ⟨fun _ => true, fun p => p ≠ "a.tmp", 7⟩

/-- Two files with identical creation timestamps, the lexically larger
path enumerated first. -/
def tieB : FileRec := ⟨"b.tmp", 5, 1⟩

/-- Two files with identical creation timestamps, the lexically
smaller path enumerated second. -/
def tieA : FileRec := ⟨"a.tmp", 5, 1⟩

end TFM

namespace TFM

/-- C1. The claim says a failed backup prevents deletion of that file.
In the code `backup_file` catches its own exception and only logs it,
so `cleanup_old_files` proceeds to `file_path.unlink()` regardless:
with three files, `max_files = 1`, and the backup of the oldest file
`a.tmp` failing, both excess files — including `a.tmp` — are deleted. -/
theorem backup_failure_does_not_prevent_delete :
    envBadBackup.backupOk "a.tmp" = false ∧
    filesToDelete invA 1 = [⟨"a.tmp", 1, 10⟩, ⟨"b.tmp", 2, 20⟩] ∧
    (cleanup_old_files envBadBackup invA 1 stats0).deleted
      = ["a.tmp", "b.tmp"] ∧
    (cleanup_old_files envBadBackup invA 1 stats0).dir = [⟨"c.tmp", 3, 30⟩] := by
  decide

/-- C2. The claim says the statistics are updated if and only if the
delete succeeded. In the code the three statistics updates precede
`file_path.unlink()` inside the same `try` block, so when the unlink
of `a.tmp` fails (file vanished) the statistics are already updated:
`files_deleted` becomes 2 although only one file (`b.tmp`) was
deleted, `total_size_cleaned` includes the size of the vanished file, and
`last_cleanup` is set. -/
theorem stats_updated_despite_delete_failure :
    envBadUnlink.unlinkOk "a.tmp" = false ∧
    (cleanup_old_files envBadUnlink invA 1 stats0).deleted = ["b.tmp"] ∧
    (cleanup_old_files envBadUnlink invA 1 stats0).stats
      = ⟨2, 30, some 7⟩ ∧
    stats0 = ⟨0, 0, none⟩ := by
  decide

/-- C5 counterexample. The claim says timestamp ties are broken by
path lexical order, the lexically smaller path being treated as older.
The code sorts with `files.sort(key=lambda x: x[1])`, a stable sort on
the timestamp alone: with `b.tmp` enumerated before `a.tmp` and equal
timestamps, the sort keeps `b.tmp` first, so with `max_files = 1` the
excess file is `b.tmp`, not the lexically smaller `a.tmp`. -/
theorem tie_break_not_lexical :
    tieA.ctime = tieB.ctime ∧
    tieA.path < tieB.path ∧
    sortByCtime [tieB, tieA] = [tieB, tieA] ∧
    filesToDelete [tieB, tieA] 1 = [tieB] := by
  refine ⟨rfl, ?_, rfl, ?_⟩
  · rw [String.lt_iff_toList_lt]; decide
  · decide

/-- C6 counterexample. The claim says a failed directory enumeration
is surfaced as the fatal `DirectoryUnavailable` error. In the code the
outer `except` of `get_file_info` catches the failure, logs it, and
the method returns the accumulated (empty) list: a normal empty
inventory, not an error. -/
theorem enumeration_failure_yields_empty_inventory :
    get_file_info (Except.error ()) = ScanOutcome.inventory [] := by
  rfl

/-- C6 (amended). `get_file_info` never surfaces a fatal error: every
failure of the directory enumeration is caught and logged inside the
method, which then returns the accumulated (empty) list as a normal
inventory; only the startup existence check can raise. -/
theorem get_file_info_never_fatal :
    get_file_info (Except.error ()) = ScanOutcome.inventory [] ∧
    ∀ (listing : Except Unit (List RawEntry)) (msg : String),
      get_file_info listing ≠ ScanOutcome.fatal msg := by
  refine ⟨rfl, ?_⟩
  intro listing msg h
  cases listing <;> simp [get_file_info] at h

/-- Witness for the amended C6: the concrete failing enumeration is
not reported through the fatal channel. -/
theorem get_file_info_never_fatal_witness :
    get_file_info (Except.error ())
      ≠ ScanOutcome.fatal "DirectoryUnavailable" :=
  get_file_info_never_fatal.2 (Except.error ()) "DirectoryUnavailable"

/-- C8. When the monitored directory is missing at startup,
`DirectoryMonitor.__init__` raises `FileNotFoundError` (modelled as
`DirectoryUnavailable`) before `setup_backup_directory` runs; the
existence pre-check in `main` calls `sys.exit(1)`, and the backup directory
is left exactly as it was (in particular, not created). -/
theorem startup_missing_directory (fs : StartupFS) (mf ci : Nat)
    (cfg : Option MonitorConfig) (h : fs.dirExists = false) :
    directoryMonitorInit fs mf ci cfg = .error .directoryUnavailable ∧
    (mainStartup fs cfg).1 ≠ 0 ∧
    (mainStartup fs cfg).2.backupDirExists = fs.backupDirExists := by
  refine ⟨?_, ?_, ?_⟩ <;> simp [directoryMonitorInit, mainStartup, h]

/-- Witness for C8: the concrete startup state with neither the
monitored directory nor the backup directory present. -/
theorem startup_missing_directory_witness :
    directoryMonitorInit ⟨false, false⟩ 1 5 none
      = .error .directoryUnavailable ∧
    (mainStartup ⟨false, false⟩ none).1 ≠ 0 ∧
    (mainStartup ⟨false, false⟩ none).2.backupDirExists = false :=
  startup_missing_directory ⟨false, false⟩ 1 5 none rfl

/-- C9. The retention decision is a pure function of the inventory
sequence and `max_files`: two applications to equal inputs yield the
same excess sequence, and the whole cleanup outcome is likewise
determined by its inputs. -/
theorem retention_deterministic (inv1 inv2 : List FileRec) (m1 m2 : Nat)
    (h1 : inv1 = inv2) (h2 : m1 = m2) :
    filesToDelete inv1 m1 = filesToDelete inv2 m2 ∧
    ∀ (env : Env) (st : Stats),
      cleanup_old_files env inv1 m1 st = cleanup_old_files env inv2 m2 st := by
  subst h1; subst h2
  exact ⟨rfl, fun _ _ => rfl⟩

/-- Witness for C9: the concrete three-file inventory. -/
theorem retention_deterministic_witness :
    filesToDelete invA 1 = filesToDelete invA 1 :=
  (retention_deterministic invA invA 1 1 rfl rfl).1

/-! Section: Stability of the sort (C5, amended) -/

/-- Inserting a record into a list keeps the records of any fixed
timestamp in order: the inserted record lands in front of the equal-
timestamp records already present, because every record skipped by
`orderedInsert` has a strictly smaller timestamp. -/
lemma filter_ctime_orderedInsert (a : FileRec) (s : List FileRec) (t : Nat) :
    (List.orderedInsert (fun x y : FileRec => x.ctime ≤ y.ctime) a s).filter
        (fun f => f.ctime = t)
      = if a.ctime = t then
          a :: s.filter (fun f => f.ctime = t)
        else
          s.filter (fun f => f.ctime = t) := by
  induction s with
  | nil =>
      by_cases h : a.ctime = t <;> simp [List.orderedInsert, h]
  | cons b s ih =>
      simp only [List.orderedInsert]
      by_cases hab : a.ctime ≤ b.ctime
      · rw [if_pos hab]
        by_cases h : a.ctime = t <;> simp [List.filter_cons, h]
      · rw [if_neg hab]
        by_cases h : a.ctime = t
        · have hbt : ¬ b.ctime = t := by omega
          simp [List.filter_cons, hbt, ih, h]
        · by_cases hbt : b.ctime = t <;> simp [List.filter_cons, hbt, ih, h]

/-- C5 (amended). The sort used to select excess files is the stable
sort on the timestamp alone: among files with identical creation
timestamps the scan enumeration order is preserved (the earlier-
scanned file is treated as older); ties are not broken by path
lexical order. -/
theorem tie_break_is_scan_order (l : List FileRec) (t : Nat) :
    (sortByCtime l).filter (fun f => f.ctime = t)
      = l.filter (fun f => f.ctime = t) := by
  induction l with
  | nil => rfl
  | cons a l ih =>
      show (List.orderedInsert _ a (sortByCtime l)).filter _ = _
      rw [filter_ctime_orderedInsert]
      by_cases h : a.ctime = t <;> simp [List.filter_cons, h, ih]

/-! Section: Statistics arithmetic of the cleanup loop -/

/-- One loop iteration always performs the three statistics updates,
whatever the backup and unlink outcomes are. -/
lemma cleanupStep_stats (env : Env) (s : CleanupState) (f : FileRec) :
    (cleanupStep env s f).stats
      = ⟨s.stats.files_deleted + 1,
         s.stats.total_size_cleaned + f.size,
         some env.now⟩ := by
  cases h : env.unlinkOk f.path <;> simp [cleanupStep, processFile, h]

/-- Folding the loop over any file list adds exactly the list length
to `files_deleted` and the sum of the scan-time sizes to
`total_size_cleaned`. -/
lemma cleanup_foldl_stats (env : Env) (del : List FileRec) :
    ∀ s : CleanupState,
      (del.foldl (cleanupStep env) s).stats.files_deleted
          = s.stats.files_deleted + del.length ∧
      (del.foldl (cleanupStep env) s).stats.total_size_cleaned
          = s.stats.total_size_cleaned + (del.map (·.size)).sum := by
  induction del with
  | nil => intro s; simp
  | cons f del ih =>
      intro s
      simp only [List.foldl_cons, List.map_cons, List.sum_cons, List.length_cons]
      obtain ⟨h1, h2⟩ := ih (cleanupStep env s f)
      rw [h1, h2, cleanupStep_stats]
      constructor <;> simp <;> omega

/-! Section: Directory arithmetic of the cleanup loop -/

/-- Unlinking a present file removes exactly one record when paths are
unique. -/
lemma eraseByPath_length (dir : List FileRec) (f : FileRec)
    (hnd : pathsNodup dir) (hmem : f ∈ dir) :
    (eraseByPath dir f.path).length + 1 = dir.length := by
  induction dir with
  | nil => cases hmem
  | cons g dir ih =>
      rw [pathsNodup, pathsOf, List.map_cons, List.nodup_cons] at hnd
      obtain ⟨hg, hnd2⟩ := hnd
      by_cases hp : g.path = f.path
      · have hall : eraseByPath dir f.path = dir := by
          rw [eraseByPath, List.filter_eq_self]
          intro x hx
          have hxp : x.path ≠ f.path := by
            intro he
            exact hg (by rw [hp, ← he]; exact List.mem_map_of_mem _ hx)
          simpa using hxp
        have hstep : eraseByPath (g :: dir) f.path = eraseByPath dir f.path := by
          simp [eraseByPath, List.filter_cons, hp]
        rw [hstep, hall, List.length_cons]
      · have hf : f ∈ dir := by
          cases hmem with
          | head => exact absurd rfl hp
          | tail _ h => exact h
        have hlen := ih (by rw [pathsNodup, pathsOf]; exact hnd2) hf
        have hstep : eraseByPath (g :: dir) f.path = g :: eraseByPath dir f.path := by
          simp [eraseByPath, List.filter_cons, hp]
        rw [hstep, List.length_cons, List.length_cons]
        omega

/-- Deleting a duplicate-free selection of present files shrinks the
directory by exactly the selection size. -/
lemma erase_foldl_length (del : List FileRec) :
    ∀ dir : List FileRec, pathsNodup dir → (∀ f ∈ del, f ∈ dir) →
      pathsNodup del →
      (del.foldl (fun d f => eraseByPath d f.path) dir).length + del.length
        = dir.length := by
  induction del with
  | nil => intro dir _ _ _; simp
  | cons f del ih =>
      intro dir hdir hsub hdel
      simp only [List.foldl_cons, List.length_cons]
      have hf : f ∈ dir := hsub f (List.mem_cons_self f del)
      have h1 := eraseByPath_length dir f hdir hf
      have hsl : List.Sublist (eraseByPath dir f.path) dir :=
        List.filter_sublist dir
      have hdir2 : pathsNodup (eraseByPath dir f.path) := by
        rw [pathsNodup, pathsOf]
        exact List.Nodup.sublist (hsl.map (·.path)) hdir
      rw [pathsNodup, pathsOf, List.map_cons, List.nodup_cons] at hdel
      obtain ⟨hfp, hdel2⟩ := hdel
      have hsub2 : ∀ g ∈ del, g ∈ eraseByPath dir f.path := by
        intro g hg
        have hgdir := hsub g (List.mem_cons_of_mem f hg)
        have hgne : g.path ≠ f.path := by
          intro he
          exact hfp (by rw [← he]; exact List.mem_map_of_mem _ hg)
        simp [eraseByPath, List.mem_filter, hgdir, hgne]
      have h2 := ih (eraseByPath dir f.path)
        hdir2 hsub2 (by rw [pathsNodup, pathsOf]; exact hdel2)
      omega

/-- When every unlink in the selection succeeds, the directory
component of the loop state evolves by pure path removal. -/
lemma cleanup_foldl_dir (env : Env) (del : List FileRec) :
    ∀ s : CleanupState, (∀ f ∈ del, env.unlinkOk f.path = true) →
      (del.foldl (cleanupStep env) s).dir
        = del.foldl (fun d f => eraseByPath d f.path) s.dir := by
  induction del with
  | nil => intro s _; rfl
  | cons f del ih =>
      intro s h
      have hf := h f (List.mem_cons_self f del)
      simp only [List.foldl_cons]
      rw [ih _ (fun g hg => h g (List.mem_cons_of_mem f hg))]
      congr 1
      simp [cleanupStep, processFile, hf]

/-! Section: Facts about the excess selection -/

/-- The excess selection is a sublist of the sorted inventory. -/
lemma filesToDelete_sublist_sort (files : List FileRec) (m : Nat) :
    List.Sublist (filesToDelete files m) (sortByCtime files) := by
  rw [filesToDelete]
  split
  · exact List.take_sublist _ _
  · exact List.nil_sublist _

/-- The sort is a permutation of the scanned inventory. -/
lemma sortByCtime_perm (files : List FileRec) :
    List.Perm (sortByCtime files) files :=
  List.perm_insertionSort _ files

/-- Every selected excess file is a scanned file. -/
lemma mem_of_mem_filesToDelete {files : List FileRec} {m : Nat} {f : FileRec}
    (h : f ∈ filesToDelete files m) : f ∈ files :=
  (sortByCtime_perm files).mem_iff.mp
    ((filesToDelete_sublist_sort files m).mem h)

/-- Unique paths in the inventory give unique paths in the selection. -/
lemma pathsNodup_filesToDelete {files : List FileRec} (m : Nat)
    (h : pathsNodup files) : pathsNodup (filesToDelete files m) := by
  have hs : pathsNodup (sortByCtime files) := by
    rw [pathsNodup, pathsOf] at h ⊢
    exact ((sortByCtime_perm files).map (·.path)).nodup_iff.mpr h
  exact List.Nodup.sublist ((filesToDelete_sublist_sort files m).map _) hs

/-- Size of the selection in the over-capacity case. -/
lemma filesToDelete_length {files : List FileRec} {m : Nat}
    (h : m < files.length) :
    (filesToDelete files m).length = files.length - m := by
  have hl : (sortByCtime files).length = files.length :=
    (sortByCtime_perm files).length_eq
  rw [filesToDelete, if_pos h, List.length_take]
  omega

/-- Under capacity, nothing is selected. -/
lemma filesToDelete_eq_nil {files : List FileRec} {m : Nat}
    (h : files.length ≤ m) : filesToDelete files m = [] := by
  rw [filesToDelete, if_neg (by omega)]

/-- C3. After one completed cleanup cycle in which every per-file
backup and unlink succeeds, on an inventory with unique paths and no
concurrent external writes (the directory equals the scan), at most
`max_files` files remain in the monitored directory. -/
theorem capacity_invariant (env : Env) (files : List FileRec) (m : Nat)
    (st : Stats) (hm : 1 ≤ m) (hnd : pathsNodup files)
    (hbackup : ∀ f ∈ filesToDelete files m, env.backupOk f.path = true)
    (hunlink : ∀ f ∈ filesToDelete files m, env.unlinkOk f.path = true) :
    (cleanup_old_files env files m st).dir.length ≤ m := by
  by_cases hlen : m < files.length
  · rw [cleanup_old_files, cleanup_foldl_dir env _ _ hunlink]
    dsimp only
    have hsub : ∀ f ∈ filesToDelete files m, f ∈ files :=
      fun f hf => mem_of_mem_filesToDelete hf
    have h2 := erase_foldl_length (filesToDelete files m) files hnd hsub
      (pathsNodup_filesToDelete m hnd)
    have h3 := filesToDelete_length hlen
    omega
  · rw [cleanup_old_files, filesToDelete_eq_nil (by omega)]
    simpa using by omega

/-- Witness for C3: the three-file inventory with `max_files = 1` and
every backup and unlink succeeding leaves at most one file. -/
theorem capacity_invariant_witness :
    (cleanup_old_files envAll invA 1 stats0).dir.length ≤ 1 :=
  capacity_invariant envAll invA 1 stats0 (by decide)
    (by unfold pathsNodup pathsOf; decide) (by decide) (by decide)

/-- C4. Within capacity the excess selection is empty and the cleanup
changes nothing; over capacity the selection consists of the
`|inventory| - max_files` oldest records — it is sorted by creation
time, together with the kept records it is a permutation of the
inventory, and every selected record is at least as old as every kept
one — and the statistics grow by exactly the selection count and the
sum of the selected scan-time sizes. -/
theorem retention_selection (env : Env) (st : Stats)
    (files : List FileRec) (m : Nat) :
    (files.length ≤ m →
      filesToDelete files m = [] ∧
      (cleanup_old_files env files m st).stats = st ∧
      (cleanup_old_files env files m st).deleted = []) ∧
    (m < files.length →
      (filesToDelete files m).length = files.length - m ∧
      List.Sorted (fun a b : FileRec => a.ctime ≤ b.ctime)
        (filesToDelete files m) ∧
      List.Perm (filesToDelete files m ++ keptOf files m) files ∧
      (∀ f ∈ filesToDelete files m, ∀ g ∈ keptOf files m,
        f.ctime ≤ g.ctime) ∧
      (cleanup_old_files env files m st).stats.files_deleted
        = st.files_deleted + (files.length - m) ∧
      (cleanup_old_files env files m st).stats.total_size_cleaned
        = st.total_size_cleaned
            + ((filesToDelete files m).map (·.size)).sum) := by
  constructor
  · intro hle
    have h0 := filesToDelete_eq_nil hle
    refine ⟨h0, ?_, ?_⟩ <;> rw [cleanup_old_files, h0] <;> rfl
  · intro hlt
    have hsorted : List.Sorted (fun a b : FileRec => a.ctime ≤ b.ctime)
        (sortByCtime files) :=
      List.sorted_insertionSort _ files
    have hsplit : filesToDelete files m ++ keptOf files m
        = sortByCtime files := by
      rw [filesToDelete, if_pos hlt, keptOf, List.take_append_drop]
    have hstats := cleanup_foldl_stats env (filesToDelete files m)
      ⟨files, st, []⟩
    refine ⟨filesToDelete_length hlt, ?_, ?_, ?_, ?_, ?_⟩
    · exact List.Pairwise.sublist (filesToDelete_sublist_sort files m) hsorted
    · rw [hsplit]; exact sortByCtime_perm files
    · have hp : List.Pairwise (fun a b : FileRec => a.ctime ≤ b.ctime)
          (filesToDelete files m ++ keptOf files m) := by
        rw [hsplit]; exact hsorted
      exact (List.pairwise_append.mp hp).2.2
    · rw [cleanup_old_files, hstats.1, filesToDelete_length hlt]
    · rw [cleanup_old_files, hstats.2]

/-- Witness for C4: the three-file inventory over capacity with
`max_files = 1`. -/
theorem retention_selection_witness :
    (filesToDelete invA 1).length = invA.length - 1 ∧
    List.Sorted (fun a b : FileRec => a.ctime ≤ b.ctime)
      (filesToDelete invA 1) ∧
    List.Perm (filesToDelete invA 1 ++ keptOf invA 1) invA ∧
    (∀ f ∈ filesToDelete invA 1, ∀ g ∈ keptOf invA 1,
      f.ctime ≤ g.ctime) ∧
    (cleanup_old_files envAll invA 1 stats0).stats.files_deleted
      = stats0.files_deleted + (invA.length - 1) ∧
    (cleanup_old_files envAll invA 1 stats0).stats.total_size_cleaned
      = stats0.total_size_cleaned + ((filesToDelete invA 1).map (·.size)).sum :=
  (retention_selection envAll stats0 invA 1).2 (by decide)

/-- C10. No operation of the monitor — scan, duplicate detection,
cleanup, status display, configuration load or save — ever decreases
`files_deleted` or `total_size_cleaned`, and none resets them after
initialization: cleanup only adds to both, every other operation
leaves them untouched. -/
theorem stats_counters_monotone (st : MonitorState) (op : Op) :
    st.stats.files_deleted ≤ (stepOp st op).stats.files_deleted ∧
    st.stats.total_size_cleaned
      ≤ (stepOp st op).stats.total_size_cleaned := by
  cases op with
  | scan listing => exact ⟨Nat.le_refl _, Nat.le_refl _⟩
  | detectDuplicatesOp files => exact ⟨Nat.le_refl _, Nat.le_refl _⟩
  | cleanupOp env =>
      have h := cleanup_foldl_stats env
        (filesToDelete st.dir st.config.max_files)
        ⟨st.dir, st.stats, []⟩
      dsimp only at h
      simp only [stepOp, cleanup_old_files]
      constructor
      · rw [h.1]; omega
      · rw [h.2]; omega
  | displayStats => exact ⟨Nat.le_refl _, Nat.le_refl _⟩
  | loadConfig cfg =>
      cases cfg <;> exact ⟨Nat.le_refl _, Nat.le_refl _⟩
  | saveConfig => exact ⟨Nat.le_refl _, Nat.le_refl _⟩

/-! Section: Duplicate detection: the hash dictionary agrees with the
first-occurrence reading of the spec -/

/-- A digest already claimed in the prefix keeps its canonical path
when the prefix grows. -/
lemma firstWithDigest_append_of_some {pre : List HashedFile} {d : Digest}
    {c : FPath} (h : firstWithDigest pre d = some c) (l2 : List HashedFile) :
    firstWithDigest (pre ++ l2) d = some c := by
  induction pre with
  | nil => simp [firstWithDigest] at h
  | cons a pre ih =>
      obtain ⟨p, od⟩ := a
      by_cases ha : od = some d
      · simp only [firstWithDigest, List.cons_append, if_pos ha] at h ⊢
        exact h
      · simp only [firstWithDigest, List.cons_append, if_neg ha] at h ⊢
        exact ih h

/-- A digest unclaimed in the prefix is resolved by the appended
part. -/
lemma firstWithDigest_append_of_none {pre : List HashedFile} {d : Digest}
    (h : firstWithDigest pre d = none) (l2 : List HashedFile) :
    firstWithDigest (pre ++ l2) d = firstWithDigest l2 d := by
  induction pre with
  | nil => rfl
  | cons a pre ih =>
      obtain ⟨p, od⟩ := a
      by_cases ha : od = some d
      · simp only [firstWithDigest, if_pos ha] at h
        cases h
      · simp only [firstWithDigest, List.cons_append, if_neg ha] at h ⊢
        exact ih h

/-- A singleton resolves a digest exactly when it carries it. -/
lemma firstWithDigest_single (p : FPath) (od : Option Digest) (d : Digest) :
    firstWithDigest [(p, od)] d
      = if od = some d then some p else none := by
  by_cases h : od = some d <;> simp [firstWithDigest, h]

/-- The dictionary pass of `detect_duplicates` computes the
first-occurrence pairing, for any dictionary faithfully representing
the already-scanned prefix. -/
lemma detectDupsAux_eq (files : List HashedFile) :
    ∀ (pre : List HashedFile) (seen : List (Digest × FPath)),
      (∀ d, lookupDigest seen d = firstWithDigest pre d) →
      detectDupsAux seen files = specDupsAux pre files := by
  induction files with
  | nil => intro pre seen _; rfl
  | cons e rest ih =>
      obtain ⟨p, od⟩ := e
      intro pre seen hinv
      cases od with
      | none =>
          simp only [detectDupsAux, specDupsAux, List.nil_append]
          apply ih
          intro d
          rw [hinv d]
          cases hfd : firstWithDigest pre d with
          | some c => rw [firstWithDigest_append_of_some hfd]
          | none =>
              rw [firstWithDigest_append_of_none hfd,
                firstWithDigest_single]
              simp
      | some d =>
          simp only [detectDupsAux, specDupsAux]
          rw [hinv d]
          cases hfd : firstWithDigest pre d with
          | some c =>
              simp only [List.singleton_append, List.cons.injEq, true_and]
              apply ih
              intro d2
              rw [hinv d2]
              cases hfd2 : firstWithDigest pre d2 with
              | some c2 => rw [firstWithDigest_append_of_some hfd2]
              | none =>
                  rw [firstWithDigest_append_of_none hfd2,
                    firstWithDigest_single]
                  have hne : ¬ (some d : Option Digest) = some d2 := by
                    intro he
                    rw [Option.some.injEq] at he
                    rw [← he, hfd] at hfd2
                    cases hfd2
                  rw [if_neg hne]
          | none =>
              simp only [List.nil_append]
              apply ih
              intro d2
              simp only [lookupDigest]
              by_cases hdd : d = d2
              · subst hdd
                rw [if_pos rfl, firstWithDigest_append_of_none hfd,
                  firstWithDigest_single, if_pos rfl]
              · rw [if_neg hdd, hinv d2]
                cases hfd2 : firstWithDigest pre d2 with
                | some c2 => rw [firstWithDigest_append_of_some hfd2]
                | none =>
                    rw [firstWithDigest_append_of_none hfd2,
                      firstWithDigest_single]
                    have hne : ¬ (some d : Option Digest) = some d2 := by
                      simpa using hdd
                    rw [if_neg hne]

/-- The reported files form a subsequence of the scan: each scanned
file is reported at most once. -/
lemma detectDupsAux_fst_sublist (files : List HashedFile) :
    ∀ seen, List.Sublist ((detectDupsAux seen files).map Prod.fst)
      (files.map Prod.fst) := by
  induction files with
  | nil => intro seen; simp [detectDupsAux]
  | cons e rest ih =>
      obtain ⟨p, od⟩ := e
      intro seen
      cases od with
      | none =>
          simp only [detectDupsAux, List.map_cons]
          exact (ih seen).cons _
      | some d =>
          cases h : lookupDigest seen d with
          | some c =>
              simp only [detectDupsAux, h, List.map_cons]
              exact (ih seen).cons₂ _
          | none =>
              simp only [detectDupsAux, h, List.map_cons]
              exact (ih _).cons _

/-- C7. Duplicate detection is a single pass in inventory order: the
first file seen with a given digest becomes canonical, every
subsequent file with the same digest is reported as exactly one pair
with that canonical file, and (paths being unique within a scan) no
pair is reported twice. -/
theorem detect_duplicates_correct (files : List HashedFile)
    (h : (files.map Prod.fst).Nodup) :
    detect_duplicates files = specDuplicates files ∧
    (detect_duplicates files).Nodup := by
  constructor
  · exact detectDupsAux_eq files [] [] (fun d => rfl)
  · have hsl := detectDupsAux_fst_sublist files []
    have hnd : ((detect_duplicates files).map Prod.fst).Nodup :=
      List.Nodup.sublist hsl h
    exact hnd.of_map _

/-- Witness for C7 (spec Scenario B): two byte-identical files yield
exactly one reported pair, whose canonical member is the first
scanned. -/
theorem detect_duplicates_correct_witness :
    detect_duplicates [("f1", some "d0"), ("f2", some "d0")]
      = [("f2", "f1")] ∧
    (detect_duplicates [("f1", some "d0"), ("f2", some "d0")]).Nodup :=
  ⟨by decide,
   (detect_duplicates_correct [("f1", some "d0"), ("f2", some "d0")]
     (by decide)).2⟩

end TFM
